import Mathlib

/-!
Verification development for the pingpp/logrus logging engine
(source files: entry.go, logger.go, exported.go).

The Go code is shallowly embedded as follows.

* Severity levels (`Level`) are natural numbers.  The Go repository
  declares `type Level uint8` with the constants PanicLevel = 0,
  FatalLevel = 1, ErrorLevel = 2, WarnLevel = 3, InfoLevel = 4,
  DebugLevel = 5 in a file that is not part of the excerpt, so the
  constants here are modelled from the spec, which fixes the ascending
  most-severe-first encoding (Panic < Fatal < Error < Warn < Info < Debug)
  and the comparison "enabled for X iff threshold >= X".

* A Go `Fields` map (map[string]interface) is embedded as an
  association list `Fields alpha` over an arbitrary value type `alpha`.
  Go map assignment `m[k] = v` is `Fields.setKV`; `range` copying of a
  map into a fresh map is `Fields.insertAll`.  Maps produced by Go code
  always have distinct keys, which is the `Fields.NodupKeys` predicate.

* Go maps are reference values: an `Entry` holds a reference to its
  `Data` map, and the copy made by the value receiver of `Entry.log`
  shares that map with the original.  The embedding makes the aliasing
  explicit with a tiny heap (`Heap alpha`, a list of map contents
  addressed by index); `Entry.dataRef` is the address of the Data map.

* The effects of dispatch (hook firing, diagnostic reports, buffer
  pool traffic, formatting, destination writes, process exit) are
  recorded as a trace of `Event`s, and a Go `panic` is an explicit
  `PanicVal` result.
-/

set_option linter.unusedVariables false

namespace Logrus

/-- Severity, modelled from the spec: `type Level uint8` with ascending
most-severe-first constants. -/
abbrev Level := Nat

/-- Modelled from the spec: PanicLevel is the most severe (smallest) level. -/
def PanicLevel : Level := 0

/-- Modelled from the spec: FatalLevel. -/
def FatalLevel : Level := 1

/-- Modelled from the spec: ErrorLevel. -/
def ErrorLevel : Level := 2

/-- Modelled from the spec: WarnLevel. -/
def WarnLevel : Level := 3

/-- Modelled from the spec: InfoLevel. -/
def InfoLevel : Level := 4

/-- Modelled from the spec: DebugLevel is the least severe (largest) level. -/
def DebugLevel : Level := 5

/-- Contents of a Go `Fields` map (map from string keys to values of an
arbitrary type), embedded as an association list. -/
abbrev Fields (α : Type) : Type := List (String × α)

/-- Go map assignment `m[k] = v`: replace the binding of `k` if present,
otherwise add it. -/
def Fields.setKV {α : Type} : Fields α → String → α → Fields α
  | [], k, v => [(k, v)]
  | (k', v') :: rest, k, v =>
    if k' = k then (k, v) :: rest else (k', v') :: Fields.setKV rest k v

/-- Go map read `m[k]`. -/
def Fields.lookup {α : Type} : Fields α → String → Option α
  | [], _ => none
  | (k', v) :: rest, k => if k' = k then some v else Fields.lookup rest k

/-- The Go loop `for k, v := range src` assigning every entry of `src`
into `dst`. -/
def Fields.insertAll {α : Type} (dst : Fields α) (src : Fields α) : Fields α :=
  src.foldl (fun acc kv => Fields.setKV acc kv.1 kv.2) dst

/-- The key list of a map. -/
def Fields.keys {α : Type} (m : Fields α) : List String := m.map Prod.fst

/-- A Go map never binds the same key twice; association lists produced by
the embedded map operations keep this invariant. -/
def Fields.NodupKeys {α : Type} (m : Fields α) : Prop := m.keys.Nodup

instance {α : Type} (m : Fields α) : Decidable (Fields.NodupKeys m) := by
  unfold Fields.NodupKeys; infer_instance

/-- The heap of allocated `Fields` maps: address `r` holds the contents of
the map allocated `r`-th.  Reading an unallocated address yields the empty
map. -/
abbrev Heap (α : Type) : Type := List (Fields α)

/-- Dereference a map address. -/
def Heap.get {α : Type} (h : Heap α) (r : Nat) : Fields α := h.getD r []

/-- Allocate a fresh map (Go `make` followed by population); returns the
new heap and the fresh address. -/
def Heap.alloc {α : Type} (h : Heap α) (d : Fields α) : Heap α × Nat :=
  (h ++ [d], h.length)

/-- Overwrite the contents stored at an address (in-place mutation of a
shared Go map). -/
def Heap.setRef {α : Type} (h : Heap α) (r : Nat) (d : Fields α) : Heap α :=
  h.set r d

/-- The `Entry` struct of entry.go.  The Go field `Logger` is a
back-reference to the owning engine; the embedding passes the engine
configuration (`LoggerCfg`) alongside instead of storing a pointer.
`dataRef` is the address of the `Data` map, making Go map aliasing
explicit; the remaining fields are the value fields of the struct.
`buffer` is the transient render buffer reference (`none` = nil). -/
structure Entry (α : Type) where
  dataRef : Nat
  time : Nat
  level : Level
  message : String
  fileName : String
  line : Int
  buffer : Option Nat
deriving DecidableEq, Repr

/-- `NewEntry`: a fresh entry with a freshly allocated empty Data map
(Go `make` with a capacity hint yields an empty map) and zero values for
every other field. -/
def Entry.mk0 {α : Type} (r : Nat) : Entry α := ⟨r, 0, 0, "", "", 0, none⟩

/-- The map contents built by `Entry.WithFields`: allocate an empty map,
copy the current Data map into it, then copy the argument map, later
assignments overwriting earlier ones. -/
def Entry.withFieldsData {α : Type} (cur fields : Fields α) : Fields α :=
  Fields.insertAll (Fields.insertAll [] cur) fields

/-- `Entry.WithFields`: allocate a fresh map holding the union, and return
a fresh `Entry` carrying only the engine back-reference and the new map
(every other struct field is zero-valued in the returned literal). -/
def Entry.withFields {α : Type} (heap : Heap α) (e : Entry α) (fields : Fields α) :
    Heap α × Entry α :=
  let data := Entry.withFieldsData (Heap.get heap e.dataRef) fields
  let a := Heap.alloc heap data
  (a.1, ⟨a.2, 0, 0, "", "", 0, none⟩)

/-- `Entry.WithField(key, value)` delegates to `WithFields` with a
singleton map. -/
def Entry.withField {α : Type} (heap : Heap α) (e : Entry α) (k : String) (v : α) :
    Heap α × Entry α :=
  Entry.withFields heap e [(k, v)]

/-- The `ErrorKey` package variable. -/
def ErrorKey : String := "error"

/-- `Entry.WithError(err)` delegates to `WithField(ErrorKey, err)`; the
error object is an arbitrary value of the field type. -/
def Entry.withError {α : Type} (heap : Heap α) (e : Entry α) (v : α) :
    Heap α × Entry α :=
  Entry.withField heap e ErrorKey v

/-- Right-biased choice on optional values (the second option is used only
when the first is absent). -/
def oOr {α : Type} : Option α → Option α → Option α
  | some v, _ => some v
  | none, b => b

/-! The dispatch pipeline of `Entry.log` (entry.go lines 98-147). -/

/-- Go `strings.LastIndex(file, sep)` for a single-character separator:
the index of the last occurrence, or -1 when absent. -/
def lastIndexSlash : List Char → Int
  | [] => -1
  | c :: rest =>
    let r := lastIndexSlash rest
    if r ≥ 0 then r + 1 else if c = '/' then 0 else -1

/-- Stamping step of `Entry.log`: current UTC time, the severity, and the
message are written to the (by-value) receiver copy. -/
def Entry.stamp {α : Type} (now : Nat) (level : Level) (msg : String) (e : Entry α) :
    Entry α :=
  { e with time := now, level := level, message := msg }

/-- Caller-resolution step of `Entry.log`: consult `runtime.Caller` at
skip `2 + depth` (the environment is a function from skip counts to an
optional file/line pair).  On failure the file name becomes "???" and the
line 1.  On success the line is stored and, only when the file path
contains a slash, the file name is set to the part after the last slash;
a slash-free path leaves the file name field untouched. -/
def Entry.resolveCaller {α : Type} (caller : Nat → Option (String × Int)) (depth : Nat)
    (e : Entry α) : Entry α :=
  match caller (2 + depth) with
  | none => { e with fileName := "???", line := 1 }
  | some fl =>
    let slash := lastIndexSlash fl.1.data
    if slash ≥ 0 then
      { e with fileName := String.mk (fl.1.data.drop (slash.toNat + 1)), line := fl.2 }
    else
      { e with line := fl.2 }

/-- A hook handler as dispatch observes it: the severities it is
registered for, the fields its `Fire` adds to the (shared) Data map of
the record it is handed, and the error it returns, if any.  Modelled from
the spec: the hook interface and the per-severity registry live outside
the excerpted files. -/
structure Hook (α : Type) where
  levels : List Level
  addFields : Fields α
  err : Option String
deriving DecidableEq, Repr

/-- An observable effect of dispatch, in program order. -/
inductive Event where
  | hookFire (idx : Nat)
  | hookErrReport (msg : String)
  | lockAcquire
  | lockRelease
  | bufferGet
  | bufferAttach
  | format
  | bufferClear
  | formatErrReport (msg : String)
  | write (out : String)
  | writeErrReport
  | bufferRelease
  | exitCall (code : Nat)
deriving DecidableEq, Repr

/-- The value carried by a Go `panic` escaping a logging call: either the
stamped record (the `panic` inside `Entry.log`) or a plain message string
(the `panic` at the end of `Entry.Panic`). -/
inductive PanicVal (α : Type) where
  | entry (e : Entry α)
  | msg (s : String)
deriving DecidableEq, Repr

/-- The message carried by a panic value (for a record, its message field). -/
def PanicVal.message {α : Type} : PanicVal α → String
  | .entry e => e.message
  | .msg s => s

/-- The engine configuration a dispatch reads: the threshold, the hook
registry, the formatter capability (a function of the record copy and the
contents of its Data map), and whether the destination write succeeds. -/
structure LoggerCfg (α : Type) where
  level : Level
  hooks : List (Hook α)
  fmtr : Entry α → Fields α → Except String String
  writeOk : Bool

/-- Modelled from the spec: the hooks fired for a severity are exactly the
registered hooks declaring that severity, in registration order (the
registry stores, per severity, the hooks appended in registration order).
Each hook is paired with its registration index. -/
def LoggerCfg.selectedHooks {α : Type} (cfg : LoggerCfg α) (level : Level) :
    List (Nat × Hook α) :=
  cfg.hooks.enum.filter (fun ih => decide (level ∈ ih.2.levels))

/-- Modelled from the spec: `LevelHooks.Fire` runs the selected hooks in
order; each hook mutates the shared Data map by its `addFields`; the first
hook returning an error stops the iteration and the error is surfaced.
Returns the firing events, the final map contents, and the surfaced
error. -/
def fireHooks {α : Type} : List (Nat × Hook α) → Fields α →
    List Event × Fields α × Option String
  | [], d => ([], d, none)
  | ih :: rest, d =>
    let d1 := Fields.insertAll d ih.2.addFields
    match ih.2.err with
    | some m => ([Event.hookFire ih.1], d1, some m)
    | none =>
      let r := fireHooks rest d1
      (Event.hookFire ih.1 :: r.1, r.2.1, r.2.2)

/-- The record copy handed to the formatter: the receiver copy after
stamping, caller resolution, and buffer attachment (`entry.Buffer` set to
the pooled render buffer, address 0 of the buffer pool). -/
def Entry.formatInput {α : Type} (caller : Nat → Option (String × Int)) (now : Nat)
    (e : Entry α) (depth : Nat) (level : Level) (msg : String) : Entry α :=
  { Entry.resolveCaller caller depth (Entry.stamp now level msg e) with buffer := some 0 }

/-- Result of one run of `Entry.log`: the event trace, the heap after hook
mutations of the shared Data map, the escaping panic (if any), and the
exit code passed to the termination policy (if any; `log` itself never
exits). -/
structure LogResult (α : Type) where
  events : List Event
  heap : Heap α
  panicked : Option (PanicVal α)
  exited : Option Nat
deriving Repr

/-- `Entry.log` (entry.go lines 98-147), on a by-value copy of the
receiver.  In order: stamp time/severity/message; resolve the caller
location; fire the hooks for the severity (a surfaced hook error is
reported to the diagnostic stream under the output lock and dispatch
continues); get and reset a pooled render buffer, attach it, run the
formatter, clear the buffer reference; on formatter error report to the
diagnostic stream and skip the write, otherwise write under the output
lock, reporting a write error to the diagnostic stream; release the
buffer to its pool on exit (the deferred Put); finally, when the severity
is at least as severe as Panic, panic with the stamped record.  The
receiver copy shares its Data map with the original entry, so hook
mutations of the map are visible through `e.dataRef` in the result heap. -/
def Entry.logF {α : Type} (cfg : LoggerCfg α) (caller : Nat → Option (String × Int))
    (now : Nat) (heap : Heap α) (e : Entry α) (depth : Nat) (level : Level)
    (msg : String) : LogResult α :=
  let fr := fireHooks (cfg.selectedHooks level) (Heap.get heap e.dataRef)
  let heap1 := Heap.setRef heap e.dataRef fr.2.1
  let errEvs := match fr.2.2 with
    | some m => [Event.lockAcquire, Event.hookErrReport m, Event.lockRelease]
    | none => []
  let e2 := Entry.formatInput caller now e depth level msg
  let fres := cfg.fmtr e2 fr.2.1
  let e3 := { e2 with buffer := none }
  let outEvs := match fres with
    | Except.error m => [Event.lockAcquire, Event.formatErrReport m, Event.lockRelease]
    | Except.ok s =>
      [Event.lockAcquire, Event.write s] ++
        (if cfg.writeOk then [] else [Event.writeErrReport]) ++ [Event.lockRelease]
  { events := fr.1 ++ errEvs ++
      [Event.bufferGet, Event.bufferAttach, Event.format, Event.bufferClear] ++
      outEvs ++ [Event.bufferRelease],
    heap := heap1,
    panicked := if level ≤ PanicLevel then some (PanicVal.entry e3) else none,
    exited := none }

/-- The result of a logging call that did nothing (severity below the
threshold). -/
def LogResult.skip {α : Type} (heap : Heap α) : LogResult α := ⟨[], heap, none, none⟩

/-! The severity-gated calls on `Entry` (entry.go lines 149-224).  Each
checks the threshold of the owning engine, then runs the dispatch
routine; the Ex variants take an explicit extra stack depth.  A panic
escaping the dispatch routine propagates, skipping everything after it. -/

/-- `Entry.DebugEx`. -/
def Entry.debugExCall {α : Type} (cfg : LoggerCfg α) (caller : Nat → Option (String × Int))
    (now : Nat) (heap : Heap α) (e : Entry α) (depth : Nat) (msg : String) : LogResult α :=
  if cfg.level ≥ DebugLevel then Entry.logF cfg caller now heap e depth DebugLevel msg
  else LogResult.skip heap

/-- `Entry.InfoEx`. -/
def Entry.infoExCall {α : Type} (cfg : LoggerCfg α) (caller : Nat → Option (String × Int))
    (now : Nat) (heap : Heap α) (e : Entry α) (depth : Nat) (msg : String) : LogResult α :=
  if cfg.level ≥ InfoLevel then Entry.logF cfg caller now heap e depth InfoLevel msg
  else LogResult.skip heap

/-- `Entry.WarnEx`. -/
def Entry.warnExCall {α : Type} (cfg : LoggerCfg α) (caller : Nat → Option (String × Int))
    (now : Nat) (heap : Heap α) (e : Entry α) (depth : Nat) (msg : String) : LogResult α :=
  if cfg.level ≥ WarnLevel then Entry.logF cfg caller now heap e depth WarnLevel msg
  else LogResult.skip heap

/-- `Entry.ErrorEx`. -/
def Entry.errorExCall {α : Type} (cfg : LoggerCfg α) (caller : Nat → Option (String × Int))
    (now : Nat) (heap : Heap α) (e : Entry α) (depth : Nat) (msg : String) : LogResult α :=
  if cfg.level ≥ ErrorLevel then Entry.logF cfg caller now heap e depth ErrorLevel msg
  else LogResult.skip heap

/-- `Entry.FatalEx`: gated dispatch, then `Exit(1)` unconditionally
(unless a panic escaped the dispatch). -/
def Entry.fatalExCall {α : Type} (cfg : LoggerCfg α) (caller : Nat → Option (String × Int))
    (now : Nat) (heap : Heap α) (e : Entry α) (depth : Nat) (msg : String) : LogResult α :=
  let r := if cfg.level ≥ FatalLevel then Entry.logF cfg caller now heap e depth FatalLevel msg
           else LogResult.skip heap
  match r.panicked with
  | some _ => r
  | none => { r with events := r.events ++ [Event.exitCall 1], exited := some 1 }

/-- `Entry.PanicEx`: gated dispatch, then `panic` with the formatted
message (reached only if the dispatch returned normally; at Panic
severity the dispatch itself panics with the stamped record). -/
def Entry.panicExCall {α : Type} (cfg : LoggerCfg α) (caller : Nat → Option (String × Int))
    (now : Nat) (heap : Heap α) (e : Entry α) (depth : Nat) (msg : String) : LogResult α :=
  let r := if cfg.level ≥ PanicLevel then Entry.logF cfg caller now heap e depth PanicLevel msg
           else LogResult.skip heap
  match r.panicked with
  | some _ => r
  | none => { r with panicked := some (PanicVal.msg msg) }

/-- `Entry.Debug` (depth 0). -/
def Entry.debugCall {α : Type} (cfg : LoggerCfg α) (caller : Nat → Option (String × Int))
    (now : Nat) (heap : Heap α) (e : Entry α) (msg : String) : LogResult α :=
  if cfg.level ≥ DebugLevel then Entry.logF cfg caller now heap e 0 DebugLevel msg
  else LogResult.skip heap

/-- `Entry.Info` (depth 0). -/
def Entry.infoCall {α : Type} (cfg : LoggerCfg α) (caller : Nat → Option (String × Int))
    (now : Nat) (heap : Heap α) (e : Entry α) (msg : String) : LogResult α :=
  if cfg.level ≥ InfoLevel then Entry.logF cfg caller now heap e 0 InfoLevel msg
  else LogResult.skip heap

/-- `Entry.Warn` (depth 0). -/
def Entry.warnCall {α : Type} (cfg : LoggerCfg α) (caller : Nat → Option (String × Int))
    (now : Nat) (heap : Heap α) (e : Entry α) (msg : String) : LogResult α :=
  if cfg.level ≥ WarnLevel then Entry.logF cfg caller now heap e 0 WarnLevel msg
  else LogResult.skip heap

/-- `Entry.Error` (depth 0). -/
def Entry.errorCall {α : Type} (cfg : LoggerCfg α) (caller : Nat → Option (String × Int))
    (now : Nat) (heap : Heap α) (e : Entry α) (msg : String) : LogResult α :=
  if cfg.level ≥ ErrorLevel then Entry.logF cfg caller now heap e 0 ErrorLevel msg
  else LogResult.skip heap

/-- `Entry.Fatal`: gated dispatch at depth 0, then `Exit(1)`
unconditionally. -/
def Entry.fatalCall {α : Type} (cfg : LoggerCfg α) (caller : Nat → Option (String × Int))
    (now : Nat) (heap : Heap α) (e : Entry α) (msg : String) : LogResult α :=
  let r := if cfg.level ≥ FatalLevel then Entry.logF cfg caller now heap e 0 FatalLevel msg
           else LogResult.skip heap
  match r.panicked with
  | some _ => r
  | none => { r with events := r.events ++ [Event.exitCall 1], exited := some 1 }

/-- `Entry.Panic`: gated dispatch at depth 0, then `panic` with the
formatted message if the dispatch returned normally. -/
def Entry.panicCall {α : Type} (cfg : LoggerCfg α) (caller : Nat → Option (String × Int))
    (now : Nat) (heap : Heap α) (e : Entry α) (msg : String) : LogResult α :=
  let r := if cfg.level ≥ PanicLevel then Entry.logF cfg caller now heap e 0 PanicLevel msg
           else LogResult.skip heap
  match r.panicked with
  | some _ => r
  | none => { r with panicked := some (PanicVal.msg msg) }

/-- Selector for the six level-named `Entry` calls, indexed by severity
(0 = Panic .. 5 = Debug); severities outside the fixed set do nothing. -/
def Entry.namedCall {α : Type} (S : Level) (cfg : LoggerCfg α)
    (caller : Nat → Option (String × Int)) (now : Nat) (heap : Heap α) (e : Entry α)
    (msg : String) : LogResult α :=
  match S with
  | 0 => Entry.panicCall cfg caller now heap e msg
  | 1 => Entry.fatalCall cfg caller now heap e msg
  | 2 => Entry.errorCall cfg caller now heap e msg
  | 3 => Entry.warnCall cfg caller now heap e msg
  | 4 => Entry.infoCall cfg caller now heap e msg
  | 5 => Entry.debugCall cfg caller now heap e msg
  | _ + 6 => LogResult.skip heap

/-! The `Logger` call surface (logger.go).  The logger owns a pool of
reusable entries; `newEntry` pops a pooled entry or makes a fresh one,
`releaseEntry` pushes an entry back without resetting anything. -/

/-- `Logger.newEntry`: take a pooled entry if one is available, otherwise
`NewEntry` (which allocates a fresh empty Data map). -/
def Logger.newEntryF {α : Type} (heap : Heap α) (pool : List (Entry α)) :
    Heap α × List (Entry α) × Entry α :=
  match pool with
  | e :: rest => (heap, rest, e)
  | [] =>
    let a := Heap.alloc heap []
    (a.1, [], Entry.mk0 a.2)

/-- Result of a logging call on the engine: the event trace, the heap,
the entry pool afterwards, the escaping panic, and the exit code given to
the termination policy. -/
structure CallResult (α : Type) where
  events : List Event
  heap : Heap α
  pool : List (Entry α)
  panicked : Option (PanicVal α)
  exited : Option Nat
deriving Repr

/-- `Logger.Debug`: gate, take a pooled entry, `entry.DebugEx(1)`,
release the entry back to the pool (skipped when a panic escapes). -/
def Logger.debugCallL {α : Type} (cfg : LoggerCfg α) (caller : Nat → Option (String × Int))
    (now : Nat) (heap : Heap α) (pool : List (Entry α)) (msg : String) : CallResult α :=
  if cfg.level ≥ DebugLevel then
    let n := Logger.newEntryF heap pool
    let r := Entry.debugExCall cfg caller now n.1 n.2.2 1 msg
    match r.panicked with
    | some p => ⟨r.events, r.heap, n.2.1, some p, none⟩
    | none => ⟨r.events, r.heap, n.2.2 :: n.2.1, none, none⟩
  else ⟨[], heap, pool, none, none⟩

/-- `Logger.Info`. -/
def Logger.infoCallL {α : Type} (cfg : LoggerCfg α) (caller : Nat → Option (String × Int))
    (now : Nat) (heap : Heap α) (pool : List (Entry α)) (msg : String) : CallResult α :=
  if cfg.level ≥ InfoLevel then
    let n := Logger.newEntryF heap pool
    let r := Entry.infoExCall cfg caller now n.1 n.2.2 1 msg
    match r.panicked with
    | some p => ⟨r.events, r.heap, n.2.1, some p, none⟩
    | none => ⟨r.events, r.heap, n.2.2 :: n.2.1, none, none⟩
  else ⟨[], heap, pool, none, none⟩

/-- `Logger.Warn`. -/
def Logger.warnCallL {α : Type} (cfg : LoggerCfg α) (caller : Nat → Option (String × Int))
    (now : Nat) (heap : Heap α) (pool : List (Entry α)) (msg : String) : CallResult α :=
  if cfg.level ≥ WarnLevel then
    let n := Logger.newEntryF heap pool
    let r := Entry.warnExCall cfg caller now n.1 n.2.2 1 msg
    match r.panicked with
    | some p => ⟨r.events, r.heap, n.2.1, some p, none⟩
    | none => ⟨r.events, r.heap, n.2.2 :: n.2.1, none, none⟩
  else ⟨[], heap, pool, none, none⟩

/-- `Logger.Error`. -/
def Logger.errorCallL {α : Type} (cfg : LoggerCfg α) (caller : Nat → Option (String × Int))
    (now : Nat) (heap : Heap α) (pool : List (Entry α)) (msg : String) : CallResult α :=
  if cfg.level ≥ ErrorLevel then
    let n := Logger.newEntryF heap pool
    let r := Entry.errorExCall cfg caller now n.1 n.2.2 1 msg
    match r.panicked with
    | some p => ⟨r.events, r.heap, n.2.1, some p, none⟩
    | none => ⟨r.events, r.heap, n.2.2 :: n.2.1, none, none⟩
  else ⟨[], heap, pool, none, none⟩

/-- `Logger.Fatal`: gate, take a pooled entry, `entry.FatalEx(1)` (which
itself exits after dispatch, so the release and the trailing `Exit(1)` of
`Logger.Fatal` are unreachable when it runs); when the severity gate is
closed the trailing `Exit(1)` still runs. -/
def Logger.fatalCallL {α : Type} (cfg : LoggerCfg α) (caller : Nat → Option (String × Int))
    (now : Nat) (heap : Heap α) (pool : List (Entry α)) (msg : String) : CallResult α :=
  if cfg.level ≥ FatalLevel then
    let n := Logger.newEntryF heap pool
    let r := Entry.fatalExCall cfg caller now n.1 n.2.2 1 msg
    match r.panicked with
    | some p => ⟨r.events, r.heap, n.2.1, some p, r.exited⟩
    | none =>
      match r.exited with
      | some c => ⟨r.events, r.heap, n.2.1, none, some c⟩
      | none => ⟨r.events ++ [Event.exitCall 1], r.heap, n.2.2 :: n.2.1, none, some 1⟩
  else ⟨[Event.exitCall 1], heap, pool, none, some 1⟩

/-- `Logger.Panic`: gate (always open, Panic being the smallest level),
take a pooled entry, `entry.PanicEx(1)`; the release is skipped when the
panic escapes. -/
def Logger.panicCallL {α : Type} (cfg : LoggerCfg α) (caller : Nat → Option (String × Int))
    (now : Nat) (heap : Heap α) (pool : List (Entry α)) (msg : String) : CallResult α :=
  if cfg.level ≥ PanicLevel then
    let n := Logger.newEntryF heap pool
    let r := Entry.panicExCall cfg caller now n.1 n.2.2 1 msg
    match r.panicked with
    | some p => ⟨r.events, r.heap, n.2.1, some p, none⟩
    | none => ⟨r.events, r.heap, n.2.2 :: n.2.1, none, none⟩
  else ⟨[], heap, pool, none, none⟩

/-- `Logger.FatalEx(depth)`: like `Logger.Fatal` with
`entry.FatalEx(1+depth)`. -/
def Logger.fatalExCallL {α : Type} (cfg : LoggerCfg α) (caller : Nat → Option (String × Int))
    (now : Nat) (heap : Heap α) (pool : List (Entry α)) (depth : Nat) (msg : String) :
    CallResult α :=
  if cfg.level ≥ FatalLevel then
    let n := Logger.newEntryF heap pool
    let r := Entry.fatalExCall cfg caller now n.1 n.2.2 (1 + depth) msg
    match r.panicked with
    | some p => ⟨r.events, r.heap, n.2.1, some p, r.exited⟩
    | none =>
      match r.exited with
      | some c => ⟨r.events, r.heap, n.2.1, none, some c⟩
      | none => ⟨r.events ++ [Event.exitCall 1], r.heap, n.2.2 :: n.2.1, none, some 1⟩
  else ⟨[Event.exitCall 1], heap, pool, none, some 1⟩

/-- `Logger.PanicEx(depth)`: like `Logger.Panic` with
`entry.PanicEx(1+depth)`. -/
def Logger.panicExCallL {α : Type} (cfg : LoggerCfg α) (caller : Nat → Option (String × Int))
    (now : Nat) (heap : Heap α) (pool : List (Entry α)) (depth : Nat) (msg : String) :
    CallResult α :=
  if cfg.level ≥ PanicLevel then
    let n := Logger.newEntryF heap pool
    let r := Entry.panicExCall cfg caller now n.1 n.2.2 (1 + depth) msg
    match r.panicked with
    | some p => ⟨r.events, r.heap, n.2.1, some p, none⟩
    | none => ⟨r.events, r.heap, n.2.2 :: n.2.1, none, none⟩
  else ⟨[], heap, pool, none, none⟩

/-- Selector for the six level-named `Logger` calls, indexed by severity
(0 = Panic .. 5 = Debug). -/
def Logger.namedCallL {α : Type} (S : Level) (cfg : LoggerCfg α)
    (caller : Nat → Option (String × Int)) (now : Nat) (heap : Heap α)
    (pool : List (Entry α)) (msg : String) : CallResult α :=
  match S with
  | 0 => Logger.panicCallL cfg caller now heap pool msg
  | 1 => Logger.fatalCallL cfg caller now heap pool msg
  | 2 => Logger.errorCallL cfg caller now heap pool msg
  | 3 => Logger.warnCallL cfg caller now heap pool msg
  | 4 => Logger.infoCallL cfg caller now heap pool msg
  | 5 => Logger.debugCallL cfg caller now heap pool msg
  | _ + 6 => ⟨[], heap, pool, none, none⟩

/-- True when a trace contains no dispatch work at all: no hook firing,
no formatter run, no write, no buffer traffic, no diagnostic report —
at most calls into the termination policy. -/
def noDispatchEvents (evs : List Event) : Bool :=
  evs.all fun ev => match ev with
    | Event.exitCall _ => true
    | _ => false

/-! Concrete fixtures used by the closed witness theorems. -/

/-- A caller-location environment that always resolves. -/
def callerW : Nat → Option (String × Int) := fun _ => some ("dir/file.go", 42)

/-- A formatter that always succeeds. -/
def fmtrOk : Entry Nat → Fields Nat → Except String String := fun _ _ => Except.ok "out"

/-- A formatter that always fails. -/
def fmtrErr : Entry Nat → Fields Nat → Except String String := fun _ _ => Except.error "bad"

/-- An engine at Info threshold with no hooks. -/
def cfgW : LoggerCfg Nat := ⟨InfoLevel, [], fmtrOk, true⟩

/-- An engine at Panic threshold (everything below Panic is suppressed). -/
def cfgLow : LoggerCfg Nat := ⟨PanicLevel, [], fmtrOk, true⟩

/-- A well-behaved hook registered for Info. -/
def hookOkW : Hook Nat := ⟨[InfoLevel], [("h1", 1)], none⟩

/-- A failing hook registered for Info. -/
def hookErrW : Hook Nat := ⟨[InfoLevel], [], some "hookfail"⟩

/-- A hook after the failing one, registered for Info. -/
def hookTailW : Hook Nat := ⟨[InfoLevel], [("h3", 3)], none⟩

/-- An engine whose second hook fails. -/
def cfgHookErr : LoggerCfg Nat := ⟨InfoLevel, [hookOkW, hookErrW, hookTailW], fmtrOk, true⟩

/-- An engine whose formatter fails. -/
def cfgFmtErr : LoggerCfg Nat := ⟨InfoLevel, [], fmtrErr, true⟩

/-- A hook that adds a field to the record it is handed. -/
def hookPoll : Hook Nat := ⟨[InfoLevel], [("polluted", 1)], none⟩

/-- An engine with the field-adding hook. -/
def cfgPoll : LoggerCfg Nat := ⟨InfoLevel, [hookPoll], fmtrOk, true⟩

/-- A fresh entry at map address 0. -/
def eW : Entry Nat := Entry.mk0 0

/-- A one-map heap for the fixtures. -/
def heapW : Heap Nat := [[]]

/-- An entry with a leftover file name, to observe the slash-free caller
resolution path. -/
def ePrev : Entry Nat := ⟨0, 0, 0, "", "prev.go", 0, none⟩

/-! Basic lemmas about the map embedding. -/

theorem Fields.lookup_eq_none_of_not_mem_keys {α : Type} {m : Fields α} {k : String}
    (h : k ∉ Fields.keys m) : Fields.lookup m k = none := by
  induction m with
  | nil => rfl
  | cons kv rest ih =>
    obtain ⟨a, b⟩ := kv
    have hka : ¬a = k := by
      intro hak
      exact h (by simp [Fields.keys, hak])
    have hrest : k ∉ Fields.keys rest := by
      intro hmem
      exact h (by simp [Fields.keys] at hmem ⊢; exact Or.inr hmem)
    simp only [Fields.lookup, if_neg hka]
    exact ih hrest

theorem Fields.lookup_setKV {α : Type} (m : Fields α) (k : String) (v : α) (q : String) :
    Fields.lookup (Fields.setKV m k v) q = if k = q then some v else Fields.lookup m q := by
  induction m with
  | nil => simp [Fields.setKV, Fields.lookup]
  | cons kv rest ih =>
    obtain ⟨a, b⟩ := kv
    by_cases hk : a = k
    · subst hk
      simp only [Fields.setKV, if_pos rfl, Fields.lookup]
      by_cases hq : a = q <;> simp [hq]
    · simp only [Fields.setKV, if_neg hk, Fields.lookup, ih]
      by_cases hq : a = q
      · subst hq
        have hka : ¬k = a := fun h => hk h.symm
        simp [hka]
      · simp [hq]

theorem Fields.keys_setKV {α : Type} (m : Fields α) (k : String) (v : α) :
    Fields.keys (Fields.setKV m k v) =
      if k ∈ Fields.keys m then Fields.keys m else Fields.keys m ++ [k] := by
  induction m with
  | nil => simp [Fields.setKV, Fields.keys]
  | cons kv rest ih =>
    obtain ⟨a, b⟩ := kv
    by_cases hk : a = k
    · subst hk
      simp [Fields.setKV, Fields.keys]
    · have hka : ¬k = a := fun heq => hk heq.symm
      have hmemiff : (k ∈ Fields.keys ((a, b) :: rest)) ↔ k ∈ Fields.keys rest := by
        rw [show Fields.keys ((a, b) :: rest) = a :: Fields.keys rest from rfl, List.mem_cons]
        simp [hka]
      by_cases hmem : k ∈ Fields.keys rest
      · rw [if_pos (hmemiff.mpr hmem)]
        simp only [Fields.setKV, if_neg hk, Fields.keys, List.map_cons]
        rw [show (Fields.setKV rest k v).map Prod.fst = Fields.keys (Fields.setKV rest k v)
          from rfl, ih, if_pos hmem]
        rfl
      · rw [if_neg (fun h => hmem (hmemiff.mp h))]
        simp only [Fields.setKV, if_neg hk, Fields.keys, List.map_cons]
        rw [show (Fields.setKV rest k v).map Prod.fst = Fields.keys (Fields.setKV rest k v)
          from rfl, ih, if_neg hmem]
        rfl

theorem Fields.NodupKeys.setKV {α : Type} {m : Fields α} (h : Fields.NodupKeys m)
    (k : String) (v : α) : Fields.NodupKeys (Fields.setKV m k v) := by
  unfold Fields.NodupKeys at h ⊢
  rw [Fields.keys_setKV]
  split_ifs with hmem
  · exact h
  · simp [List.nodup_append, h, hmem]

theorem Fields.NodupKeys.insertAll {α : Type} {m : Fields α} (h : Fields.NodupKeys m)
    (l : Fields α) : Fields.NodupKeys (Fields.insertAll m l) := by
  induction l generalizing m with
  | nil => exact h
  | cons kv rest ih => exact ih (h.setKV kv.1 kv.2)

theorem oOr_assoc {α : Type} (a b c : Option α) : oOr (oOr a b) c = oOr a (oOr b c) := by
  cases a <;> rfl

theorem oOr_none_right {α : Type} (a : Option α) : oOr a none = a := by
  cases a <;> rfl

theorem Fields.lookup_insertAll {α : Type} (l : Fields α) (hl : Fields.NodupKeys l)
    (m : Fields α) (k : String) :
    Fields.lookup (Fields.insertAll m l) k = oOr (Fields.lookup l k) (Fields.lookup m k) := by
  induction l generalizing m with
  | nil => simp [Fields.insertAll, Fields.lookup, oOr]
  | cons kv rest ih =>
    obtain ⟨a, b⟩ := kv
    rw [show Fields.NodupKeys ((a, b) :: rest) = (a :: Fields.keys rest).Nodup from rfl,
      List.nodup_cons] at hl
    have step : Fields.insertAll m ((a, b) :: rest) = Fields.insertAll (Fields.setKV m a b) rest :=
      rfl
    rw [step, ih hl.2]
    by_cases hk : a = k
    · subst hk
      have hnone : Fields.lookup rest a = none :=
        Fields.lookup_eq_none_of_not_mem_keys hl.1
      simp [hnone, Fields.lookup, Fields.lookup_setKV, oOr]
    · simp only [Fields.lookup, Fields.lookup_setKV, if_neg hk]

theorem Entry.lookup_withFieldsData {α : Type} {cur fs : Fields α}
    (hc : Fields.NodupKeys cur) (hf : Fields.NodupKeys fs) (k : String) :
    Fields.lookup (Entry.withFieldsData cur fs) k =
      oOr (Fields.lookup fs k) (Fields.lookup cur k) := by
  unfold Entry.withFieldsData
  rw [Fields.lookup_insertAll fs hf, Fields.lookup_insertAll cur hc]
  simp [Fields.lookup, oOr_none_right]

theorem Entry.nodup_withFieldsData {α : Type} (cur fs : Fields α) :
    Fields.NodupKeys (Entry.withFieldsData cur fs) := by
  unfold Entry.withFieldsData
  have h0 : Fields.NodupKeys ([] : Fields α) := by simp [Fields.NodupKeys, Fields.keys]
  exact (h0.insertAll cur).insertAll fs

theorem Heap.get_alloc {α : Type} (h : Heap α) (d : Fields α) :
    Heap.get (Heap.alloc h d).1 (Heap.alloc h d).2 = d := by
  induction h with
  | nil => rfl
  | cons x t ih => exact ih

theorem Heap.get_alloc_lt {α : Type} (h : Heap α) (d : Fields α) {r : Nat}
    (hr : r < h.length) : Heap.get (Heap.alloc h d).1 r = Heap.get h r := by
  induction h generalizing r with
  | nil => exact absurd hr (Nat.not_lt_zero r)
  | cons x t ih =>
    cases r with
    | zero => rfl
    | succ n => exact ih (Nat.lt_of_succ_lt_succ hr)

theorem Heap.setRef_get_self {α : Type} (h : Heap α) (r : Nat) :
    Heap.setRef h r (Heap.get h r) = h := by
  induction h generalizing r with
  | nil => rfl
  | cons x t ih =>
    cases r with
    | zero => rfl
    | succ n => exact congrArg (List.cons x) (ih n)

/-! Claim C2: field attachment builds the right-biased union. -/

/-- Claim C2: attaching a field map to a Record yields a new Record whose
Field Map is the union of the old map and the supplied entries, later
keys winning on collision (first conjunct), and attachment is associative
(second conjunct).  The key-distinctness hypotheses hold for every Go
map. -/
theorem claim_c2 {α : Type} (heap : Heap α) (e : Entry α) (fs m1 m2 : Fields α)
    (hc : Fields.NodupKeys (Heap.get heap e.dataRef)) (hf : Fields.NodupKeys fs)
    (h1 : Fields.NodupKeys m1) (h2 : Fields.NodupKeys m2) :
    (∀ k, Fields.lookup
        (Heap.get (Entry.withFields heap e fs).1 (Entry.withFields heap e fs).2.dataRef) k =
      oOr (Fields.lookup fs k) (Fields.lookup (Heap.get heap e.dataRef) k))
    ∧ (∀ k, Fields.lookup
        (Entry.withFieldsData (Entry.withFieldsData (Heap.get heap e.dataRef) m1) m2) k =
      Fields.lookup
        (Entry.withFieldsData (Heap.get heap e.dataRef) (Entry.withFieldsData m1 m2)) k) := by
  constructor
  · intro k
    rw [show (Entry.withFields heap e fs).1 =
        heap ++ [Entry.withFieldsData (Heap.get heap e.dataRef) fs] from rfl,
      show (Entry.withFields heap e fs).2.dataRef = heap.length from rfl,
      show Heap.get (heap ++ [Entry.withFieldsData (Heap.get heap e.dataRef) fs]) heap.length =
        Entry.withFieldsData (Heap.get heap e.dataRef) fs from Heap.get_alloc heap _]
    exact Entry.lookup_withFieldsData hc hf k
  · intro k
    rw [Entry.lookup_withFieldsData (Entry.nodup_withFieldsData _ _) h2 k,
      Entry.lookup_withFieldsData hc h1 k,
      Entry.lookup_withFieldsData hc (Entry.nodup_withFieldsData m1 m2) k,
      Entry.lookup_withFieldsData h1 h2 k,
      oOr_assoc]

/-- Claim C2 witness: attaching a=2 over a=1 yields a=2; attaching c=3
over a=1,b=2 keeps a, b and adds c. -/
theorem claim_c2_witness :
    Fields.lookup
        (Heap.get (Entry.withFields ([[("a", 1)]] : Heap Nat) (Entry.mk0 0) [("a", 2)]).1
          (Entry.withFields ([[("a", 1)]] : Heap Nat) (Entry.mk0 0) [("a", 2)]).2.dataRef) "a"
      = some 2
    ∧ Fields.lookup
        (Heap.get
          (Entry.withFields ([[("a", 1), ("b", 2)]] : Heap Nat) (Entry.mk0 0) [("c", 3)]).1
          (Entry.withFields ([[("a", 1), ("b", 2)]] : Heap Nat) (Entry.mk0 0)
            [("c", 3)]).2.dataRef) "b"
      = some 2 :=
  ⟨((claim_c2 [[("a", 1)]] (Entry.mk0 0) [("a", 2)] [] [] (by decide) (by decide) (by decide)
      (by decide)).1 "a").trans (by decide),
   ((claim_c2 [[("a", 1), ("b", 2)]] (Entry.mk0 0) [("c", 3)] [] [] (by decide) (by decide)
      (by decide) (by decide)).1 "b").trans (by decide)⟩

/-! Claim C5: field attachment never mutates the source Record. -/

/-- Claim C5: `WithFields`, `WithField` and `WithError` leave the Field
Map of the source Record untouched and return a Record holding a
different (freshly allocated) map.  The hypothesis says the source map
address is an allocated one. -/
theorem claim_c5 {α : Type} (heap : Heap α) (e : Entry α) (fs : Fields α) (k : String)
    (v w : α) (hv : e.dataRef < heap.length) :
    (Heap.get (Entry.withFields heap e fs).1 e.dataRef = Heap.get heap e.dataRef
      ∧ (Entry.withFields heap e fs).2.dataRef ≠ e.dataRef)
    ∧ (Heap.get (Entry.withField heap e k v).1 e.dataRef = Heap.get heap e.dataRef
      ∧ (Entry.withField heap e k v).2.dataRef ≠ e.dataRef)
    ∧ (Heap.get (Entry.withError heap e w).1 e.dataRef = Heap.get heap e.dataRef
      ∧ (Entry.withError heap e w).2.dataRef ≠ e.dataRef) := by
  have base : ∀ fields : Fields α,
      Heap.get (Entry.withFields heap e fields).1 e.dataRef = Heap.get heap e.dataRef
      ∧ (Entry.withFields heap e fields).2.dataRef ≠ e.dataRef := by
    intro fields
    constructor
    · exact Heap.get_alloc_lt heap _ hv
    · exact Ne.symm (Nat.ne_of_lt hv)
  exact ⟨base fs, base [(k, v)], base [(ErrorKey, w)]⟩

/-- Claim C5 witness. -/
theorem claim_c5_witness :
    Heap.get (Entry.withFields ([[("x", 9)]] : Heap Nat) (Entry.mk0 0) [("a", 2)]).1
        (Entry.mk0 0 : Entry Nat).dataRef
      = Heap.get ([[("x", 9)]] : Heap Nat) (Entry.mk0 0 : Entry Nat).dataRef
    ∧ (Entry.withFields ([[("x", 9)]] : Heap Nat) (Entry.mk0 0) [("a", 2)]).2.dataRef
      ≠ (Entry.mk0 0 : Entry Nat).dataRef :=
  (claim_c5 [[("x", 9)]] (Entry.mk0 0) [("a", 2)] "k" 5 7 (by decide)).1

/-! Claim C8: caller-location resolution. -/

theorem lastIndexSlash_nonneg_iff (l : List Char) : 0 ≤ lastIndexSlash l ↔ '/' ∈ l := by
  induction l with
  | nil => simp [lastIndexSlash]
  | cons c rest ih =>
    simp only [lastIndexSlash, List.mem_cons]
    by_cases hr : 0 ≤ lastIndexSlash rest
    · rw [if_pos hr]
      constructor
      · intro _; exact Or.inr (ih.mp hr)
      · intro _; omega
    · rw [if_neg hr]
      by_cases hc : c = '/'
      · rw [if_pos hc]
        constructor
        · intro _; exact Or.inl hc.symm
        · intro _; omega
      · rw [if_neg hc]
        constructor
        · intro h; omega
        · intro h
          rcases h with h | h
          · exact absurd h.symm hc
          · exact absurd (ih.mpr h) hr

theorem lastIndexSlash_decomp (l : List Char) (h : '/' ∈ l) :
    (∃ p, l = p ++ '/' :: l.drop ((lastIndexSlash l).toNat + 1))
    ∧ '/' ∉ l.drop ((lastIndexSlash l).toNat + 1) := by
  induction l with
  | nil => cases h
  | cons c rest ih =>
    by_cases hr : 0 ≤ lastIndexSlash rest
    · have hmem : '/' ∈ rest := (lastIndexSlash_nonneg_iff rest).mp hr
      have hstep : lastIndexSlash (c :: rest) = lastIndexSlash rest + 1 := by
        simp only [lastIndexSlash]
        rw [if_pos hr]
      have htn : (lastIndexSlash rest + 1).toNat = (lastIndexSlash rest).toNat + 1 := by omega
      have hdrop : (c :: rest).drop ((lastIndexSlash (c :: rest)).toNat + 1) =
          rest.drop ((lastIndexSlash rest).toNat + 1) := by
        rw [hstep, htn]
        rfl
      obtain ⟨⟨p, hp⟩, hno⟩ := ih hmem
      refine ⟨⟨c :: p, ?_⟩, ?_⟩
      · rw [hdrop]
        simpa [List.cons_append] using congrArg (List.cons c) hp
      · rw [hdrop]
        exact hno
    · by_cases hc : c = '/'
      · have hstep : lastIndexSlash (c :: rest) = 0 := by
          simp only [lastIndexSlash]
          rw [if_neg hr, if_pos hc]
        have hno : '/' ∉ rest := fun hm => hr ((lastIndexSlash_nonneg_iff rest).mpr hm)
        subst hc
        refine ⟨⟨[], ?_⟩, ?_⟩
        · rw [hstep]
          rfl
        · rw [hstep]
          exact hno
      · have : '/' ∈ rest := by
          rcases List.mem_cons.mp h with h1 | h1
          · exact absurd h1.symm hc
          · exact h1
        exact absurd ((lastIndexSlash_nonneg_iff rest).mpr this) hr

/-- Claim C8, counterexample to the claim as stated: caller resolution
succeeds with a slash-free file path ("main.go", line 7), yet the Record
file name is not set to the base name "main.go" — the code assigns the
file name only when the path contains a slash, so the stale previous
value survives. -/
theorem claim_c8_counterexample :
    (Entry.resolveCaller (α := Nat) (fun _ => some ("main.go", 7)) 0 ePrev).fileName = "prev.go"
    ∧ (Entry.resolveCaller (α := Nat) (fun _ => some ("main.go", 7)) 0 ePrev).fileName
      ≠ "main.go" := by
  decide

/-- Claim C8, amended: dispatch consults the stack walker at skip
`2 + depth`; on failure the file name is "???" and the line 1; on success
the line is the reported one and, when the path contains a slash, the
file name is the part after the last slash (a true base name: it contains
no slash and the path decomposes as prefix ++ slash ++ base);
when the path is slash-free the file name field is left unchanged. -/
theorem claim_c8_amended {α : Type} (caller : Nat → Option (String × Int)) (depth : Nat)
    (e : Entry α) :
    (caller (2 + depth) = none →
      (Entry.resolveCaller caller depth e).fileName = "???"
      ∧ (Entry.resolveCaller caller depth e).line = 1)
    ∧ (∀ f l, caller (2 + depth) = some (f, l) →
        (Entry.resolveCaller caller depth e).line = l
        ∧ (('/') ∈ f.data →
            ('/') ∉ (Entry.resolveCaller caller depth e).fileName.data
            ∧ ∃ p, f.data = p ++ ('/') :: (Entry.resolveCaller caller depth e).fileName.data)
        ∧ (('/') ∉ f.data → (Entry.resolveCaller caller depth e).fileName = e.fileName)) := by
  constructor
  · intro h
    simp [Entry.resolveCaller, h]
  · intro f l h
    by_cases hs : ('/') ∈ f.data
    · have hnn : 0 ≤ lastIndexSlash f.data := (lastIndexSlash_nonneg_iff f.data).mpr hs
      have hres : Entry.resolveCaller caller depth e =
          { e with fileName := String.mk (f.data.drop ((lastIndexSlash f.data).toNat + 1)),
                   line := l } := by
        simp [Entry.resolveCaller, h, hnn]
      obtain ⟨⟨p, hp⟩, hno⟩ := lastIndexSlash_decomp f.data hs
      refine ⟨by rw [hres], fun _ => ⟨?_, p, ?_⟩, fun habs => absurd hs habs⟩
      · rw [hres]
        exact hno
      · rw [hres]
        exact hp
    · have hnn : ¬0 ≤ lastIndexSlash f.data := by
        intro hge
        exact hs ((lastIndexSlash_nonneg_iff f.data).mp hge)
      have hres : Entry.resolveCaller caller depth e = { e with line := l } := by
        simp [Entry.resolveCaller, h, hnn]
      exact ⟨by rw [hres], fun hmem => absurd hmem hs, fun _ => by rw [hres]⟩

/-- Claim C8 witness for the amended statement: a path with directories
is stripped to its base name. -/
theorem claim_c8_amended_witness :
    ('/') ∉ (Entry.resolveCaller (α := Nat) (fun _ => some ("a/b/c.go", 9)) 0 ePrev).fileName.data
    ∧ ∃ p, ("a/b/c.go" : String).data =
        p ++ ('/') :: (Entry.resolveCaller (α := Nat) (fun _ => some ("a/b/c.go", 9))
          0 ePrev).fileName.data :=
  ((claim_c8_amended (fun _ => some ("a/b/c.go", 9)) 0 ePrev).2 "a/b/c.go" 9 rfl).2.1
    (by decide)

/-! Helper lemmas about the dispatch routine. -/

theorem Entry.format_mem_logF {α : Type} (cfg : LoggerCfg α)
    (caller : Nat → Option (String × Int)) (now : Nat) (heap : Heap α) (e : Entry α)
    (depth : Nat) (level : Level) (msg : String) :
    Event.format ∈ (Entry.logF cfg caller now heap e depth level msg).events := by
  simp [Entry.logF, List.mem_append]

theorem Entry.logF_panicked_of_pos {α : Type} (cfg : LoggerCfg α)
    (caller : Nat → Option (String × Int)) (now : Nat) (heap : Heap α) (e : Entry α)
    (depth : Nat) (level : Level) (msg : String) (hl : ¬level ≤ PanicLevel) :
    (Entry.logF cfg caller now heap e depth level msg).panicked = none := by
  simp [Entry.logF, hl]

theorem Entry.logF_panicked_at_panic {α : Type} (cfg : LoggerCfg α)
    (caller : Nat → Option (String × Int)) (now : Nat) (heap : Heap α) (e : Entry α)
    (depth : Nat) (msg : String) :
    (Entry.logF cfg caller now heap e depth PanicLevel msg).panicked =
      some (PanicVal.entry
        { Entry.formatInput caller now e depth PanicLevel msg with buffer := none }) := by
  simp [Entry.logF, PanicLevel]

theorem Entry.message_formatInput {α : Type} (caller : Nat → Option (String × Int))
    (now : Nat) (e : Entry α) (depth : Nat) (level : Level) (msg : String) :
    (Entry.formatInput caller now e depth level msg).message = msg := by
  rcases hc : caller (2 + depth) with _ | fl
  · simp [Entry.formatInput, Entry.resolveCaller, Entry.stamp, hc]
  · simp only [Entry.formatInput, Entry.resolveCaller, Entry.stamp, hc]
    split <;> rfl

/-! Equations for the gated calls: `X` and `XEx 0` coincide, and the Ex
calls reduce to dispatch (or to a skip) according to the gate. -/

theorem Entry.panicExCall_eq {α : Type} (cfg : LoggerCfg α)
    (caller : Nat → Option (String × Int)) (now : Nat) (heap : Heap α) (e : Entry α)
    (depth : Nat) (msg : String) :
    Entry.panicExCall cfg caller now heap e depth msg =
      Entry.logF cfg caller now heap e depth PanicLevel msg := by
  simp only [Entry.panicExCall]
  rw [if_pos (show cfg.level ≥ PanicLevel from Nat.zero_le cfg.level)]
  simp only [Entry.logF_panicked_at_panic]

theorem Entry.fatalExCall_eq_enabled {α : Type} (cfg : LoggerCfg α)
    (caller : Nat → Option (String × Int)) (now : Nat) (heap : Heap α) (e : Entry α)
    (depth : Nat) (msg : String) (h : cfg.level ≥ FatalLevel) :
    Entry.fatalExCall cfg caller now heap e depth msg =
      { Entry.logF cfg caller now heap e depth FatalLevel msg with
        events := (Entry.logF cfg caller now heap e depth FatalLevel msg).events ++
          [Event.exitCall 1],
        exited := some 1 } := by
  simp only [Entry.fatalExCall]
  rw [if_pos h]
  simp only [Entry.logF_panicked_of_pos cfg caller now heap e depth FatalLevel msg
    (by simp [FatalLevel, PanicLevel])]

theorem Entry.fatalExCall_eq_disabled {α : Type} (cfg : LoggerCfg α)
    (caller : Nat → Option (String × Int)) (now : Nat) (heap : Heap α) (e : Entry α)
    (depth : Nat) (msg : String) (h : ¬cfg.level ≥ FatalLevel) :
    Entry.fatalExCall cfg caller now heap e depth msg =
      ⟨[Event.exitCall 1], heap, none, some 1⟩ := by
  simp only [Entry.fatalExCall]
  rw [if_neg h]
  rfl

theorem gatedSimple {α : Type} (cfg : LoggerCfg α) (caller : Nat → Option (String × Int))
    (now : Nat) (heap : Heap α) (e : Entry α) (msg : String) (lv : Level) :
    (Event.format ∈ (if cfg.level ≥ lv then Entry.logF cfg caller now heap e 0 lv msg
        else LogResult.skip heap).events ↔ cfg.level ≥ lv)
    ∧ (cfg.level < lv →
      noDispatchEvents (if cfg.level ≥ lv then Entry.logF cfg caller now heap e 0 lv msg
        else LogResult.skip heap).events = true) := by
  by_cases h : cfg.level ≥ lv
  · rw [if_pos h]
    exact ⟨⟨fun _ => h, fun _ => Entry.format_mem_logF cfg caller now heap e 0 lv msg⟩,
      fun hlt => absurd (Nat.lt_of_lt_of_le hlt h) (Nat.lt_irrefl _)⟩
  · rw [if_neg h]
    exact ⟨⟨fun hm => absurd hm (List.not_mem_nil _), fun hge => absurd hge h⟩, fun _ => rfl⟩

theorem gatedFatal_entry {α : Type} (cfg : LoggerCfg α) (caller : Nat → Option (String × Int))
    (now : Nat) (heap : Heap α) (e : Entry α) (msg : String) :
    (Event.format ∈ (Entry.fatalCall cfg caller now heap e msg).events ↔ cfg.level ≥ FatalLevel)
    ∧ (cfg.level < FatalLevel →
      noDispatchEvents (Entry.fatalCall cfg caller now heap e msg).events = true) := by
  rw [show Entry.fatalCall cfg caller now heap e msg =
    Entry.fatalExCall cfg caller now heap e 0 msg from rfl]
  by_cases h : cfg.level ≥ FatalLevel
  · rw [Entry.fatalExCall_eq_enabled cfg caller now heap e 0 msg h]
    refine ⟨⟨fun _ => h, fun _ => ?_⟩,
      fun hlt => absurd (Nat.lt_of_lt_of_le hlt h) (Nat.lt_irrefl _)⟩
    exact List.mem_append_left _ (Entry.format_mem_logF cfg caller now heap e 0 FatalLevel msg)
  · rw [Entry.fatalExCall_eq_disabled cfg caller now heap e 0 msg h]
    refine ⟨⟨fun hm => ?_, fun hge => absurd hge h⟩, fun _ => rfl⟩
    simp at hm

theorem gatedPanic_entry {α : Type} (cfg : LoggerCfg α) (caller : Nat → Option (String × Int))
    (now : Nat) (heap : Heap α) (e : Entry α) (msg : String) :
    (Event.format ∈ (Entry.panicCall cfg caller now heap e msg).events ↔ cfg.level ≥ PanicLevel)
    ∧ (cfg.level < PanicLevel →
      noDispatchEvents (Entry.panicCall cfg caller now heap e msg).events = true) := by
  rw [show Entry.panicCall cfg caller now heap e msg =
    Entry.panicExCall cfg caller now heap e 0 msg from rfl,
    Entry.panicExCall_eq cfg caller now heap e 0 msg]
  exact ⟨⟨fun _ => Nat.zero_le _, fun _ => Entry.format_mem_logF cfg caller now heap e 0
    PanicLevel msg⟩, fun hlt => absurd hlt (Nat.not_lt_zero _)⟩

theorem Logger.debugCallL_events_enabled {α : Type} (cfg : LoggerCfg α)
    (caller : Nat → Option (String × Int)) (now : Nat) (heap : Heap α)
    (pool : List (Entry α)) (msg : String) (h : cfg.level ≥ DebugLevel) :
    (Logger.debugCallL cfg caller now heap pool msg).events =
      (Entry.logF cfg caller now (Logger.newEntryF heap pool).1
        (Logger.newEntryF heap pool).2.2 1 DebugLevel msg).events := by
  simp only [Logger.debugCallL, Entry.debugExCall]
  rw [if_pos h, if_pos h]
  cases (Entry.logF cfg caller now (Logger.newEntryF heap pool).1
    (Logger.newEntryF heap pool).2.2 1 DebugLevel msg).panicked <;> rfl

theorem Logger.debugCallL_events_disabled {α : Type} (cfg : LoggerCfg α)
    (caller : Nat → Option (String × Int)) (now : Nat) (heap : Heap α)
    (pool : List (Entry α)) (msg : String) (h : ¬cfg.level ≥ DebugLevel) :
    (Logger.debugCallL cfg caller now heap pool msg).events = [] := by
  simp only [Logger.debugCallL]
  rw [if_neg h]

theorem Logger.infoCallL_events_enabled {α : Type} (cfg : LoggerCfg α)
    (caller : Nat → Option (String × Int)) (now : Nat) (heap : Heap α)
    (pool : List (Entry α)) (msg : String) (h : cfg.level ≥ InfoLevel) :
    (Logger.infoCallL cfg caller now heap pool msg).events =
      (Entry.logF cfg caller now (Logger.newEntryF heap pool).1
        (Logger.newEntryF heap pool).2.2 1 InfoLevel msg).events := by
  simp only [Logger.infoCallL, Entry.infoExCall]
  rw [if_pos h, if_pos h]
  cases (Entry.logF cfg caller now (Logger.newEntryF heap pool).1
    (Logger.newEntryF heap pool).2.2 1 InfoLevel msg).panicked <;> rfl

theorem Logger.infoCallL_events_disabled {α : Type} (cfg : LoggerCfg α)
    (caller : Nat → Option (String × Int)) (now : Nat) (heap : Heap α)
    (pool : List (Entry α)) (msg : String) (h : ¬cfg.level ≥ InfoLevel) :
    (Logger.infoCallL cfg caller now heap pool msg).events = [] := by
  simp only [Logger.infoCallL]
  rw [if_neg h]

theorem Logger.warnCallL_events_enabled {α : Type} (cfg : LoggerCfg α)
    (caller : Nat → Option (String × Int)) (now : Nat) (heap : Heap α)
    (pool : List (Entry α)) (msg : String) (h : cfg.level ≥ WarnLevel) :
    (Logger.warnCallL cfg caller now heap pool msg).events =
      (Entry.logF cfg caller now (Logger.newEntryF heap pool).1
        (Logger.newEntryF heap pool).2.2 1 WarnLevel msg).events := by
  simp only [Logger.warnCallL, Entry.warnExCall]
  rw [if_pos h, if_pos h]
  cases (Entry.logF cfg caller now (Logger.newEntryF heap pool).1
    (Logger.newEntryF heap pool).2.2 1 WarnLevel msg).panicked <;> rfl

theorem Logger.warnCallL_events_disabled {α : Type} (cfg : LoggerCfg α)
    (caller : Nat → Option (String × Int)) (now : Nat) (heap : Heap α)
    (pool : List (Entry α)) (msg : String) (h : ¬cfg.level ≥ WarnLevel) :
    (Logger.warnCallL cfg caller now heap pool msg).events = [] := by
  simp only [Logger.warnCallL]
  rw [if_neg h]

theorem Logger.errorCallL_events_enabled {α : Type} (cfg : LoggerCfg α)
    (caller : Nat → Option (String × Int)) (now : Nat) (heap : Heap α)
    (pool : List (Entry α)) (msg : String) (h : cfg.level ≥ ErrorLevel) :
    (Logger.errorCallL cfg caller now heap pool msg).events =
      (Entry.logF cfg caller now (Logger.newEntryF heap pool).1
        (Logger.newEntryF heap pool).2.2 1 ErrorLevel msg).events := by
  simp only [Logger.errorCallL, Entry.errorExCall]
  rw [if_pos h, if_pos h]
  cases (Entry.logF cfg caller now (Logger.newEntryF heap pool).1
    (Logger.newEntryF heap pool).2.2 1 ErrorLevel msg).panicked <;> rfl

theorem Logger.errorCallL_events_disabled {α : Type} (cfg : LoggerCfg α)
    (caller : Nat → Option (String × Int)) (now : Nat) (heap : Heap α)
    (pool : List (Entry α)) (msg : String) (h : ¬cfg.level ≥ ErrorLevel) :
    (Logger.errorCallL cfg caller now heap pool msg).events = [] := by
  simp only [Logger.errorCallL]
  rw [if_neg h]

theorem Logger.fatalCallL_eq_enabled {α : Type} (cfg : LoggerCfg α)
    (caller : Nat → Option (String × Int)) (now : Nat) (heap : Heap α)
    (pool : List (Entry α)) (msg : String) (h : cfg.level ≥ FatalLevel) :
    Logger.fatalCallL cfg caller now heap pool msg =
      ⟨(Entry.logF cfg caller now (Logger.newEntryF heap pool).1
          (Logger.newEntryF heap pool).2.2 1 FatalLevel msg).events ++ [Event.exitCall 1],
        (Entry.logF cfg caller now (Logger.newEntryF heap pool).1
          (Logger.newEntryF heap pool).2.2 1 FatalLevel msg).heap,
        (Logger.newEntryF heap pool).2.1, none, some 1⟩ := by
  have hp := Entry.logF_panicked_of_pos cfg caller now (Logger.newEntryF heap pool).1
    (Logger.newEntryF heap pool).2.2 1 FatalLevel msg (by simp [FatalLevel, PanicLevel])
  simp only [Logger.fatalCallL]
  rw [if_pos h, Entry.fatalExCall_eq_enabled cfg caller now (Logger.newEntryF heap pool).1
    (Logger.newEntryF heap pool).2.2 1 msg h]
  simp only [hp]

theorem Logger.fatalCallL_eq_disabled {α : Type} (cfg : LoggerCfg α)
    (caller : Nat → Option (String × Int)) (now : Nat) (heap : Heap α)
    (pool : List (Entry α)) (msg : String) (h : ¬cfg.level ≥ FatalLevel) :
    Logger.fatalCallL cfg caller now heap pool msg =
      ⟨[Event.exitCall 1], heap, pool, none, some 1⟩ := by
  simp only [Logger.fatalCallL]
  rw [if_neg h]

theorem Logger.panicCallL_eq_enabled {α : Type} (cfg : LoggerCfg α)
    (caller : Nat → Option (String × Int)) (now : Nat) (heap : Heap α)
    (pool : List (Entry α)) (msg : String) :
    Logger.panicCallL cfg caller now heap pool msg =
      ⟨(Entry.logF cfg caller now (Logger.newEntryF heap pool).1
          (Logger.newEntryF heap pool).2.2 1 PanicLevel msg).events,
        (Entry.logF cfg caller now (Logger.newEntryF heap pool).1
          (Logger.newEntryF heap pool).2.2 1 PanicLevel msg).heap,
        (Logger.newEntryF heap pool).2.1,
        some (PanicVal.entry
          { Entry.formatInput caller now (Logger.newEntryF heap pool).2.2 1 PanicLevel msg with
            buffer := none }), none⟩ := by
  simp only [Logger.panicCallL]
  rw [if_pos (show cfg.level ≥ PanicLevel from Nat.zero_le cfg.level),
    Entry.panicExCall_eq cfg caller now (Logger.newEntryF heap pool).1
      (Logger.newEntryF heap pool).2.2 1 msg]
  simp only [Entry.logF_panicked_at_panic]

/-- Claim C1: a level-named logging call at severity S — on an Entry or
on the Logger — performs dispatch (the formatter runs, along with the
rest of the pipeline) iff the threshold satisfies `threshold >= S`; when
`threshold < S` the trace contains no dispatch events at all (for Fatal,
only the termination-policy call remains). -/
theorem claim_c1 {α : Type} (cfg : LoggerCfg α) (caller : Nat → Option (String × Int))
    (now : Nat) (heap : Heap α) (e : Entry α) (pool : List (Entry α)) (msg : String)
    (S : Level) (hS : S ≤ 5) :
    ((Event.format ∈ (Entry.namedCall S cfg caller now heap e msg).events ↔ cfg.level ≥ S)
      ∧ (cfg.level < S →
        noDispatchEvents (Entry.namedCall S cfg caller now heap e msg).events = true))
    ∧ ((Event.format ∈ (Logger.namedCallL S cfg caller now heap pool msg).events ↔
        cfg.level ≥ S)
      ∧ (cfg.level < S →
        noDispatchEvents (Logger.namedCallL S cfg caller now heap pool msg).events = true)) := by
  interval_cases S
  · -- S = 0 (Panic)
    refine ⟨gatedPanic_entry cfg caller now heap e msg, ⟨fun _ => Nat.zero_le _, fun _ => ?_⟩,
      fun hlt => absurd hlt (Nat.not_lt_zero _)⟩
    rw [show Logger.namedCallL 0 cfg caller now heap pool msg =
      Logger.panicCallL cfg caller now heap pool msg from rfl,
      Logger.panicCallL_eq_enabled cfg caller now heap pool msg]
    exact Entry.format_mem_logF cfg caller now (Logger.newEntryF heap pool).1
      (Logger.newEntryF heap pool).2.2 1 PanicLevel msg
  · -- S = 1 (Fatal)
    refine ⟨gatedFatal_entry cfg caller now heap e msg, ?_⟩
    by_cases h : 1 ≤ cfg.level
    · rw [show Logger.namedCallL 1 cfg caller now heap pool msg =
        Logger.fatalCallL cfg caller now heap pool msg from rfl,
        Logger.fatalCallL_eq_enabled cfg caller now heap pool msg h]
      refine ⟨⟨fun _ => h, fun _ => ?_⟩,
        fun hlt => absurd (Nat.lt_of_lt_of_le hlt h) (Nat.lt_irrefl _)⟩
      exact List.mem_append_left _ (Entry.format_mem_logF cfg caller now
        (Logger.newEntryF heap pool).1 (Logger.newEntryF heap pool).2.2 1 FatalLevel msg)
    · rw [show Logger.namedCallL 1 cfg caller now heap pool msg =
        Logger.fatalCallL cfg caller now heap pool msg from rfl,
        Logger.fatalCallL_eq_disabled cfg caller now heap pool msg h]
      refine ⟨⟨fun hm => ?_, fun hge => absurd hge h⟩, fun _ => rfl⟩
      simp at hm
  · -- S = 2 (Error)
    refine ⟨gatedSimple cfg caller now heap e msg 2, ?_⟩
    by_cases h : 2 ≤ cfg.level
    · refine ⟨⟨fun _ => h, fun _ => ?_⟩,
        fun hlt => absurd (Nat.lt_of_lt_of_le hlt h) (Nat.lt_irrefl _)⟩
      rw [show Logger.namedCallL 2 cfg caller now heap pool msg =
        Logger.errorCallL cfg caller now heap pool msg from rfl,
        Logger.errorCallL_events_enabled cfg caller now heap pool msg h]
      exact Entry.format_mem_logF cfg caller now (Logger.newEntryF heap pool).1
        (Logger.newEntryF heap pool).2.2 1 ErrorLevel msg
    · refine ⟨⟨fun hm => ?_, fun hge => absurd hge h⟩, fun _ => ?_⟩
      · rw [show Logger.namedCallL 2 cfg caller now heap pool msg =
          Logger.errorCallL cfg caller now heap pool msg from rfl,
          Logger.errorCallL_events_disabled cfg caller now heap pool msg h] at hm
        exact absurd hm (List.not_mem_nil _)
      · rw [show Logger.namedCallL 2 cfg caller now heap pool msg =
          Logger.errorCallL cfg caller now heap pool msg from rfl,
          Logger.errorCallL_events_disabled cfg caller now heap pool msg h]
        rfl
  · -- S = 3 (Warn)
    refine ⟨gatedSimple cfg caller now heap e msg 3, ?_⟩
    by_cases h : 3 ≤ cfg.level
    · refine ⟨⟨fun _ => h, fun _ => ?_⟩,
        fun hlt => absurd (Nat.lt_of_lt_of_le hlt h) (Nat.lt_irrefl _)⟩
      rw [show Logger.namedCallL 3 cfg caller now heap pool msg =
        Logger.warnCallL cfg caller now heap pool msg from rfl,
        Logger.warnCallL_events_enabled cfg caller now heap pool msg h]
      exact Entry.format_mem_logF cfg caller now (Logger.newEntryF heap pool).1
        (Logger.newEntryF heap pool).2.2 1 WarnLevel msg
    · refine ⟨⟨fun hm => ?_, fun hge => absurd hge h⟩, fun _ => ?_⟩
      · rw [show Logger.namedCallL 3 cfg caller now heap pool msg =
          Logger.warnCallL cfg caller now heap pool msg from rfl,
          Logger.warnCallL_events_disabled cfg caller now heap pool msg h] at hm
        exact absurd hm (List.not_mem_nil _)
      · rw [show Logger.namedCallL 3 cfg caller now heap pool msg =
          Logger.warnCallL cfg caller now heap pool msg from rfl,
          Logger.warnCallL_events_disabled cfg caller now heap pool msg h]
        rfl
  · -- S = 4 (Info)
    refine ⟨gatedSimple cfg caller now heap e msg 4, ?_⟩
    by_cases h : 4 ≤ cfg.level
    · refine ⟨⟨fun _ => h, fun _ => ?_⟩,
        fun hlt => absurd (Nat.lt_of_lt_of_le hlt h) (Nat.lt_irrefl _)⟩
      rw [show Logger.namedCallL 4 cfg caller now heap pool msg =
        Logger.infoCallL cfg caller now heap pool msg from rfl,
        Logger.infoCallL_events_enabled cfg caller now heap pool msg h]
      exact Entry.format_mem_logF cfg caller now (Logger.newEntryF heap pool).1
        (Logger.newEntryF heap pool).2.2 1 InfoLevel msg
    · refine ⟨⟨fun hm => ?_, fun hge => absurd hge h⟩, fun _ => ?_⟩
      · rw [show Logger.namedCallL 4 cfg caller now heap pool msg =
          Logger.infoCallL cfg caller now heap pool msg from rfl,
          Logger.infoCallL_events_disabled cfg caller now heap pool msg h] at hm
        exact absurd hm (List.not_mem_nil _)
      · rw [show Logger.namedCallL 4 cfg caller now heap pool msg =
          Logger.infoCallL cfg caller now heap pool msg from rfl,
          Logger.infoCallL_events_disabled cfg caller now heap pool msg h]
        rfl
  · -- S = 5 (Debug)
    refine ⟨gatedSimple cfg caller now heap e msg 5, ?_⟩
    by_cases h : 5 ≤ cfg.level
    · refine ⟨⟨fun _ => h, fun _ => ?_⟩,
        fun hlt => absurd (Nat.lt_of_lt_of_le hlt h) (Nat.lt_irrefl _)⟩
      rw [show Logger.namedCallL 5 cfg caller now heap pool msg =
        Logger.debugCallL cfg caller now heap pool msg from rfl,
        Logger.debugCallL_events_enabled cfg caller now heap pool msg h]
      exact Entry.format_mem_logF cfg caller now (Logger.newEntryF heap pool).1
        (Logger.newEntryF heap pool).2.2 1 DebugLevel msg
    · refine ⟨⟨fun hm => ?_, fun hge => absurd hge h⟩, fun _ => ?_⟩
      · rw [show Logger.namedCallL 5 cfg caller now heap pool msg =
          Logger.debugCallL cfg caller now heap pool msg from rfl,
          Logger.debugCallL_events_disabled cfg caller now heap pool msg h] at hm
        exact absurd hm (List.not_mem_nil _)
      · rw [show Logger.namedCallL 5 cfg caller now heap pool msg =
          Logger.debugCallL cfg caller now heap pool msg from rfl,
          Logger.debugCallL_events_disabled cfg caller now heap pool msg h]
        rfl

/-- Claim C1 witness: at Info threshold, an Info call on an Entry
dispatches (the formatter runs). -/
theorem claim_c1_witness :
    Event.format ∈ (Entry.namedCall 4 cfgW callerW 0 heapW eW "m").events :=
  ((claim_c1 cfgW callerW 0 heapW eW [] "m" 4 (by decide)).1.1).mpr (by decide)

theorem Logger.fatalExCallL_eq_enabled {α : Type} (cfg : LoggerCfg α)
    (caller : Nat → Option (String × Int)) (now : Nat) (heap : Heap α)
    (pool : List (Entry α)) (depth : Nat) (msg : String) (h : cfg.level ≥ FatalLevel) :
    Logger.fatalExCallL cfg caller now heap pool depth msg =
      ⟨(Entry.logF cfg caller now (Logger.newEntryF heap pool).1
          (Logger.newEntryF heap pool).2.2 (1 + depth) FatalLevel msg).events ++
          [Event.exitCall 1],
        (Entry.logF cfg caller now (Logger.newEntryF heap pool).1
          (Logger.newEntryF heap pool).2.2 (1 + depth) FatalLevel msg).heap,
        (Logger.newEntryF heap pool).2.1, none, some 1⟩ := by
  have hp := Entry.logF_panicked_of_pos cfg caller now (Logger.newEntryF heap pool).1
    (Logger.newEntryF heap pool).2.2 (1 + depth) FatalLevel msg (by simp [FatalLevel, PanicLevel])
  simp only [Logger.fatalExCallL]
  rw [if_pos h, Entry.fatalExCall_eq_enabled cfg caller now (Logger.newEntryF heap pool).1
    (Logger.newEntryF heap pool).2.2 (1 + depth) msg h]
  simp only [hp]

theorem Logger.fatalExCallL_eq_disabled {α : Type} (cfg : LoggerCfg α)
    (caller : Nat → Option (String × Int)) (now : Nat) (heap : Heap α)
    (pool : List (Entry α)) (depth : Nat) (msg : String) (h : ¬cfg.level ≥ FatalLevel) :
    Logger.fatalExCallL cfg caller now heap pool depth msg =
      ⟨[Event.exitCall 1], heap, pool, none, some 1⟩ := by
  simp only [Logger.fatalExCallL]
  rw [if_neg h]

theorem Logger.panicExCallL_eq {α : Type} (cfg : LoggerCfg α)
    (caller : Nat → Option (String × Int)) (now : Nat) (heap : Heap α)
    (pool : List (Entry α)) (depth : Nat) (msg : String) :
    Logger.panicExCallL cfg caller now heap pool depth msg =
      ⟨(Entry.logF cfg caller now (Logger.newEntryF heap pool).1
          (Logger.newEntryF heap pool).2.2 (1 + depth) PanicLevel msg).events,
        (Entry.logF cfg caller now (Logger.newEntryF heap pool).1
          (Logger.newEntryF heap pool).2.2 (1 + depth) PanicLevel msg).heap,
        (Logger.newEntryF heap pool).2.1,
        some (PanicVal.entry
          { Entry.formatInput caller now (Logger.newEntryF heap pool).2.2 (1 + depth)
              PanicLevel msg with buffer := none }), none⟩ := by
  simp only [Logger.panicExCallL]
  rw [if_pos (show cfg.level ≥ PanicLevel from Nat.zero_le cfg.level),
    Entry.panicExCall_eq cfg caller now (Logger.newEntryF heap pool).1
      (Logger.newEntryF heap pool).2.2 (1 + depth) msg]
  simp only [Entry.logF_panicked_at_panic]

/-- Claim C3: every Fatal call — `Fatal` and `FatalEx`, on an Entry or on
the Logger — hands exit code 1 to the termination policy, and does so
after dispatch (the termination call is the last event); when the
threshold is below Fatal nothing is dispatched and the trace is exactly
the termination call. -/
theorem claim_c3 {α : Type} (cfg : LoggerCfg α) (caller : Nat → Option (String × Int))
    (now : Nat) (heap : Heap α) (e : Entry α) (pool : List (Entry α)) (depth : Nat)
    (msg : String) :
    ((Entry.fatalCall cfg caller now heap e msg).exited = some 1
      ∧ (Entry.fatalCall cfg caller now heap e msg).events.getLast? = some (Event.exitCall 1)
      ∧ (cfg.level < FatalLevel →
          (Entry.fatalCall cfg caller now heap e msg).events = [Event.exitCall 1]))
    ∧ ((Entry.fatalExCall cfg caller now heap e depth msg).exited = some 1
      ∧ (Entry.fatalExCall cfg caller now heap e depth msg).events.getLast? =
          some (Event.exitCall 1)
      ∧ (cfg.level < FatalLevel →
          (Entry.fatalExCall cfg caller now heap e depth msg).events = [Event.exitCall 1]))
    ∧ ((Logger.fatalCallL cfg caller now heap pool msg).exited = some 1
      ∧ (Logger.fatalCallL cfg caller now heap pool msg).events.getLast? =
          some (Event.exitCall 1)
      ∧ (cfg.level < FatalLevel →
          (Logger.fatalCallL cfg caller now heap pool msg).events = [Event.exitCall 1]))
    ∧ ((Logger.fatalExCallL cfg caller now heap pool depth msg).exited = some 1
      ∧ (Logger.fatalExCallL cfg caller now heap pool depth msg).events.getLast? =
          some (Event.exitCall 1)
      ∧ (cfg.level < FatalLevel →
          (Logger.fatalExCallL cfg caller now heap pool depth msg).events =
            [Event.exitCall 1])) := by
  have partE : ∀ d : Nat,
      (Entry.fatalExCall cfg caller now heap e d msg).exited = some 1
      ∧ (Entry.fatalExCall cfg caller now heap e d msg).events.getLast? =
          some (Event.exitCall 1)
      ∧ (cfg.level < FatalLevel →
          (Entry.fatalExCall cfg caller now heap e d msg).events = [Event.exitCall 1]) := by
    intro d
    by_cases h : cfg.level ≥ FatalLevel
    · rw [Entry.fatalExCall_eq_enabled cfg caller now heap e d msg h]
      exact ⟨rfl, List.getLast?_concat _,
        fun hlt => absurd (Nat.lt_of_lt_of_le hlt h) (Nat.lt_irrefl _)⟩
    · rw [Entry.fatalExCall_eq_disabled cfg caller now heap e d msg h]
      exact ⟨rfl, rfl, fun _ => rfl⟩
  have partL : ∀ d : Nat,
      (Logger.fatalExCallL cfg caller now heap pool d msg).exited = some 1
      ∧ (Logger.fatalExCallL cfg caller now heap pool d msg).events.getLast? =
          some (Event.exitCall 1)
      ∧ (cfg.level < FatalLevel →
          (Logger.fatalExCallL cfg caller now heap pool d msg).events =
            [Event.exitCall 1]) := by
    intro d
    by_cases h : cfg.level ≥ FatalLevel
    · rw [Logger.fatalExCallL_eq_enabled cfg caller now heap pool d msg h]
      exact ⟨rfl, List.getLast?_concat _,
        fun hlt => absurd (Nat.lt_of_lt_of_le hlt h) (Nat.lt_irrefl _)⟩
    · rw [Logger.fatalExCallL_eq_disabled cfg caller now heap pool d msg h]
      exact ⟨rfl, rfl, fun _ => rfl⟩
  exact ⟨partE 0, partE depth, partL 0, partL depth⟩

/-- Claim C3 witness: with the threshold at Panic (below Fatal), a Fatal
call logs nothing yet still exits with code 1. -/
theorem claim_c3_witness :
    (Entry.fatalCall cfgLow callerW 0 heapW eW "x").events = [Event.exitCall 1] :=
  (claim_c3 cfgLow callerW 0 heapW eW [] 0 "x").1.2.2 (by decide)

/-- Claim C4: every Panic call — `Panic` and `PanicEx`, on an Entry or on
the Logger — raises a panic after dispatch (the formatter ran), for every
threshold, and the carried value holds the formatted message (the panic
raised inside the dispatch routine carries the stamped record, whose
message field is the formatted message). -/
theorem claim_c4 {α : Type} (cfg : LoggerCfg α) (caller : Nat → Option (String × Int))
    (now : Nat) (heap : Heap α) (e : Entry α) (pool : List (Entry α)) (depth : Nat)
    (msg : String) :
    ((Entry.panicCall cfg caller now heap e msg).panicked.map PanicVal.message = some msg
      ∧ Event.format ∈ (Entry.panicCall cfg caller now heap e msg).events)
    ∧ ((Entry.panicExCall cfg caller now heap e depth msg).panicked.map PanicVal.message =
          some msg
      ∧ Event.format ∈ (Entry.panicExCall cfg caller now heap e depth msg).events)
    ∧ ((Logger.panicCallL cfg caller now heap pool msg).panicked.map PanicVal.message =
          some msg
      ∧ Event.format ∈ (Logger.panicCallL cfg caller now heap pool msg).events)
    ∧ ((Logger.panicExCallL cfg caller now heap pool depth msg).panicked.map
          PanicVal.message = some msg
      ∧ Event.format ∈ (Logger.panicExCallL cfg caller now heap pool depth msg).events) := by
  have partE : ∀ d : Nat,
      (Entry.panicExCall cfg caller now heap e d msg).panicked.map PanicVal.message = some msg
      ∧ Event.format ∈ (Entry.panicExCall cfg caller now heap e d msg).events := by
    intro d
    rw [Entry.panicExCall_eq cfg caller now heap e d msg]
    constructor
    · rw [Entry.logF_panicked_at_panic]
      exact congrArg some (Entry.message_formatInput caller now e d PanicLevel msg)
    · exact Entry.format_mem_logF cfg caller now heap e d PanicLevel msg
  have partL : ∀ d : Nat,
      (Logger.panicExCallL cfg caller now heap pool d msg).panicked.map PanicVal.message =
          some msg
      ∧ Event.format ∈ (Logger.panicExCallL cfg caller now heap pool d msg).events := by
    intro d
    rw [Logger.panicExCallL_eq cfg caller now heap pool d msg]
    constructor
    · exact congrArg some (Entry.message_formatInput caller now
        (Logger.newEntryF heap pool).2.2 (1 + d) PanicLevel msg)
    · exact Entry.format_mem_logF cfg caller now (Logger.newEntryF heap pool).1
        (Logger.newEntryF heap pool).2.2 (1 + d) PanicLevel msg
  exact ⟨partE 0, partE depth, partL 0, partL depth⟩

/-! Hook firing and the buffer discipline (claims C6 and C7). -/

theorem Entry.logF_events {α : Type} (cfg : LoggerCfg α)
    (caller : Nat → Option (String × Int)) (now : Nat) (heap : Heap α) (e : Entry α)
    (depth : Nat) (level : Level) (msg : String) :
    (Entry.logF cfg caller now heap e depth level msg).events =
      (fireHooks (cfg.selectedHooks level) (Heap.get heap e.dataRef)).1 ++
      (match (fireHooks (cfg.selectedHooks level) (Heap.get heap e.dataRef)).2.2 with
        | some m => [Event.lockAcquire, Event.hookErrReport m, Event.lockRelease]
        | none => []) ++
      [Event.bufferGet, Event.bufferAttach, Event.format, Event.bufferClear] ++
      (match cfg.fmtr (Entry.formatInput caller now e depth level msg)
          (fireHooks (cfg.selectedHooks level) (Heap.get heap e.dataRef)).2.1 with
        | Except.error m => [Event.lockAcquire, Event.formatErrReport m, Event.lockRelease]
        | Except.ok s => [Event.lockAcquire, Event.write s] ++
            (if cfg.writeOk then [] else [Event.writeErrReport]) ++ [Event.lockRelease]) ++
      [Event.bufferRelease] := rfl

theorem fireHooks_split {α : Type} (pre : List (Nat × Hook α)) (hk : Nat × Hook α)
    (post : List (Nat × Hook α)) (d : Fields α) (hpre : ∀ x ∈ pre, x.2.err = none)
    {m : String} (herr : hk.2.err = some m) :
    (fireHooks (pre ++ hk :: post) d).1 = (pre ++ [hk]).map (fun x => Event.hookFire x.1)
    ∧ (fireHooks (pre ++ hk :: post) d).2.2 = some m := by
  induction pre generalizing d with
  | nil =>
    constructor <;> simp [fireHooks, herr]
  | cons x rest ih =>
    have hx : x.2.err = none := hpre x (List.mem_cons_self _ _)
    have ihr := ih (Fields.insertAll d x.2.addFields)
      (fun y hy => hpre y (List.mem_cons_of_mem _ hy))
    simp only [List.cons_append, fireHooks, hx]
    exact ⟨congrArg (List.cons (Event.hookFire x.1)) ihr.1, ihr.2⟩

theorem fireHooks_events_hookFire {α : Type} (l : List (Nat × Hook α)) (d : Fields α)
    (ev : Event) (hmem : ev ∈ (fireHooks l d).1) : ∃ i, ev = Event.hookFire i := by
  induction l generalizing d with
  | nil => cases hmem
  | cons x rest ih =>
    cases hxe : x.2.err with
    | none =>
      simp only [fireHooks, hxe] at hmem
      rcases List.mem_cons.mp hmem with h1 | h1
      · exact ⟨x.1, h1⟩
      · exact ih _ h1
    | some m2 =>
      simp only [fireHooks, hxe] at hmem
      rcases List.mem_cons.mp hmem with h1 | h1
      · exact ⟨x.1, h1⟩
      · exact absurd h1 (List.not_mem_nil _)

/-- Claim C6: when a fired hook returns an error, exactly the hooks up to
and including the failing one fire (the rest of that firing is skipped),
the error is reported to the diagnostic stream between an acquisition and
a release of the output lock, and the record still proceeds to formatting
and — the formatter succeeding — to the destination write. -/
theorem claim_c6 {α : Type} (cfg : LoggerCfg α) (caller : Nat → Option (String × Int))
    (now : Nat) (heap : Heap α) (e : Entry α) (depth : Nat) (level : Level) (msg : String)
    (pre : List (Nat × Hook α)) (hk : Nat × Hook α) (post : List (Nat × Hook α))
    (m : String)
    (hsel : cfg.selectedHooks level = pre ++ hk :: post)
    (hpre : ∀ x ∈ pre, x.2.err = none)
    (herr : hk.2.err = some m)
    (hfok : ∀ ev d, (cfg.fmtr ev d).isOk = true) :
    ((fireHooks (cfg.selectedHooks level) (Heap.get heap e.dataRef)).1 =
      (pre ++ [hk]).map (fun x => Event.hookFire x.1))
    ∧ (∃ l t, (Entry.logF cfg caller now heap e depth level msg).events =
        l ++ [Event.lockAcquire, Event.hookErrReport m, Event.lockRelease] ++ t)
    ∧ Event.format ∈ (Entry.logF cfg caller now heap e depth level msg).events
    ∧ (∃ s, Event.write s ∈ (Entry.logF cfg caller now heap e depth level msg).events) := by
  obtain ⟨hev, herr2⟩ := fireHooks_split pre hk post (Heap.get heap e.dataRef) hpre herr
  refine ⟨by rw [hsel]; exact hev, ?_, Entry.format_mem_logF cfg caller now heap e depth
    level msg, ?_⟩
  · refine ⟨(fireHooks (cfg.selectedHooks level) (Heap.get heap e.dataRef)).1,
      [Event.bufferGet, Event.bufferAttach, Event.format, Event.bufferClear] ++
        (match cfg.fmtr (Entry.formatInput caller now e depth level msg)
            (fireHooks (cfg.selectedHooks level) (Heap.get heap e.dataRef)).2.1 with
          | Except.error m2 =>
            [Event.lockAcquire, Event.formatErrReport m2, Event.lockRelease]
          | Except.ok s => [Event.lockAcquire, Event.write s] ++
              (if cfg.writeOk then [] else [Event.writeErrReport]) ++ [Event.lockRelease]) ++
        [Event.bufferRelease], ?_⟩
    rw [Entry.logF_events, hsel, herr2]
    simp [List.append_assoc]
  · rcases hft : cfg.fmtr (Entry.formatInput caller now e depth level msg)
        (fireHooks (cfg.selectedHooks level) (Heap.get heap e.dataRef)).2.1 with m2 | s
    · have hok := hfok (Entry.formatInput caller now e depth level msg)
        (fireHooks (cfg.selectedHooks level) (Heap.get heap e.dataRef)).2.1
      rw [hft] at hok
      simp [Except.isOk, Except.toBool] at hok
    · refine ⟨s, ?_⟩
      rw [Entry.logF_events, hft]
      simp [List.mem_append]

/-- Claim C6 witness: with hooks [ok, failing, ok] registered for Info,
an Info dispatch still writes to the destination. -/
theorem claim_c6_witness :
    ∃ s, Event.write s ∈ (Entry.logF cfgHookErr callerW 0 heapW eW 0 InfoLevel "m").events :=
  (claim_c6 cfgHookErr callerW 0 heapW eW 0 InfoLevel "m" [(0, hookOkW)] (1, hookErrW)
    [(2, hookTailW)] "hookfail" (by decide) (by decide) (by decide)
    (fun ev d => rfl)).2.2.2

/-- Claim C7: the render buffer is acquired, attached, the formatter
runs, the buffer reference is cleared immediately after the formatter
returns, and the buffer is released to its pool as the final action in
both the success and failure cases (first conjunct: the trace always has
the shape prefix ++ [get, attach, format, clear] ++ middle ++ [release]);
and when the formatter fails, no write occurs and the failure is reported
to the diagnostic stream (second conjunct). -/
theorem claim_c7 {α : Type} (cfg : LoggerCfg α) (caller : Nat → Option (String × Int))
    (now : Nat) (heap : Heap α) (e : Entry α) (depth : Nat) (level : Level) (msg : String) :
    (∃ hp mid, (Entry.logF cfg caller now heap e depth level msg).events =
        hp ++ [Event.bufferGet, Event.bufferAttach, Event.format, Event.bufferClear] ++
          mid ++ [Event.bufferRelease])
    ∧ (∀ m, cfg.fmtr (Entry.formatInput caller now e depth level msg)
          (fireHooks (cfg.selectedHooks level) (Heap.get heap e.dataRef)).2.1 =
          Except.error m →
        (∀ s, Event.write s ∉ (Entry.logF cfg caller now heap e depth level msg).events)
        ∧ Event.formatErrReport m ∈
            (Entry.logF cfg caller now heap e depth level msg).events) := by
  constructor
  · refine ⟨(fireHooks (cfg.selectedHooks level) (Heap.get heap e.dataRef)).1 ++
      (match (fireHooks (cfg.selectedHooks level) (Heap.get heap e.dataRef)).2.2 with
        | some m2 => [Event.lockAcquire, Event.hookErrReport m2, Event.lockRelease]
        | none => []),
      (match cfg.fmtr (Entry.formatInput caller now e depth level msg)
          (fireHooks (cfg.selectedHooks level) (Heap.get heap e.dataRef)).2.1 with
        | Except.error m2 => [Event.lockAcquire, Event.formatErrReport m2, Event.lockRelease]
        | Except.ok s => [Event.lockAcquire, Event.write s] ++
            (if cfg.writeOk then [] else [Event.writeErrReport]) ++ [Event.lockRelease]), ?_⟩
    rw [Entry.logF_events]
  · intro m hft
    constructor
    · intro s hm
      rcases hb : (fireHooks (cfg.selectedHooks level) (Heap.get heap e.dataRef)).2.2
        with _ | m2 <;>
      · rw [Entry.logF_events, hft, hb] at hm
        simp at hm
        obtain ⟨i, hi⟩ := fireHooks_events_hookFire _ _ _ hm
        exact Event.noConfusion hi
    · rw [Entry.logF_events, hft]
      simp [List.mem_append]

/-- Claim C7 witness: with an always-failing formatter, an Info dispatch
writes nothing and reports the formatter failure. -/
theorem claim_c7_witness :
    (∀ s, Event.write s ∉ (Entry.logF cfgFmtErr callerW 0 heapW eW 0 InfoLevel "m").events)
    ∧ Event.formatErrReport "bad" ∈
        (Entry.logF cfgFmtErr callerW 0 heapW eW 0 InfoLevel "m").events :=
  (claim_c7 cfgFmtErr callerW 0 heapW eW 0 InfoLevel "m").2 "bad" rfl

/-! Claims C9 and C10: the shared Data map versus the pool and the
caller-visible Entry. -/

theorem fireHooks_data_of_no_add {α : Type} (l : List (Nat × Hook α))
    (h : ∀ x ∈ l, x.2.addFields = ([] : Fields α)) :
    ∀ d : Fields α, (fireHooks l d).2.1 = d := by
  induction l with
  | nil => intro d; rfl
  | cons x rest ih =>
    intro d
    have hx : x.2.addFields = [] := h x (List.mem_cons_self _ _)
    have ih2 := ih (fun y hy => h y (List.mem_cons_of_mem _ hy))
    cases hxe : x.2.err with
    | some m => simp only [fireHooks, hx, hxe]; rfl
    | none =>
      simp only [fireHooks, hx, hxe]
      exact ih2 d

theorem Entry.logF_heap_no_add {α : Type} (cfg : LoggerCfg α)
    (caller : Nat → Option (String × Int)) (now : Nat) (heap : Heap α) (e : Entry α)
    (depth : Nat) (level : Level) (msg : String)
    (h : ∀ x ∈ cfg.selectedHooks level, x.2.addFields = ([] : Fields α)) :
    (Entry.logF cfg caller now heap e depth level msg).heap = heap := by
  show Heap.setRef heap e.dataRef
    (fireHooks (cfg.selectedHooks level) (Heap.get heap e.dataRef)).2.1 = heap
  rw [fireHooks_data_of_no_add _ h]
  exact Heap.setRef_get_self heap e.dataRef

/-- Claim C9, evaluation at the failing input: one Info call on a logger
whose single Info hook adds a field pollutes the pooled Entry — the hook
mutates the Data map shared between the dispatch copy and the pooled
original, `releaseEntry` performs no reset, and the next `newEntry` hands
the same Entry out again with a non-empty Field Map. -/
theorem claim_c9_bug :
    (Logger.infoCallL cfgPoll callerW 0 [] [] "a").pool = [Entry.mk0 0]
    ∧ Heap.get (Logger.infoCallL cfgPoll callerW 0 [] [] "a").heap
        (Entry.mk0 0 : Entry Nat).dataRef = [("polluted", 1)]
    ∧ (Logger.newEntryF (Logger.infoCallL cfgPoll callerW 0 [] [] "a").heap
        (Logger.infoCallL cfgPoll callerW 0 [] [] "a").pool).2.2 = Entry.mk0 0
    ∧ Heap.get (Logger.infoCallL cfgPoll callerW 0 [] [] "a").heap
        ((Logger.newEntryF (Logger.infoCallL cfgPoll callerW 0 [] [] "a").heap
          (Logger.infoCallL cfgPoll callerW 0 [] [] "a").pool).2.2).dataRef ≠ [] := by
  decide

/-- Claim C10, counterexample to the claim as stated: after an enabled
Info call on an Entry, with a hook that adds a field, the contents of the
caller Entry Field Map have changed — the dispatch copy shares the Data
map with the caller Entry, so hook mutations are visible through it. -/
theorem claim_c10_counterexample :
    Heap.get (Entry.infoCall cfgPoll callerW 0 heapW eW "m").heap eW.dataRef
      ≠ Heap.get heapW eW.dataRef := by
  decide

/-- Claim C10, amended: dispatch operates on a by-value copy of the
Entry, so the stamping of time, severity, message, caller location and
buffer is never visible on the caller Entry (in the embedding the call
returns no modified Entry at all, mirroring the value receiver), and the
only caller-visible mutation channel is the shared Data map: when no hook
fired for the severity adds fields, the heap — hence the caller Entry
Field Map — is unchanged by any of the six level-named calls. -/
theorem claim_c10_amended {α : Type} (cfg : LoggerCfg α)
    (caller : Nat → Option (String × Int)) (now : Nat) (heap : Heap α) (e : Entry α)
    (msg : String) (S : Level) (hS : S ≤ 5)
    (h : ∀ x ∈ cfg.selectedHooks S, x.2.addFields = ([] : Fields α)) :
    (Entry.namedCall S cfg caller now heap e msg).heap = heap := by
  interval_cases S
  · -- Panic
    rw [show Entry.namedCall 0 cfg caller now heap e msg =
      Entry.panicExCall cfg caller now heap e 0 msg from rfl,
      Entry.panicExCall_eq cfg caller now heap e 0 msg]
    exact Entry.logF_heap_no_add cfg caller now heap e 0 PanicLevel msg h
  · -- Fatal
    rw [show Entry.namedCall 1 cfg caller now heap e msg =
      Entry.fatalExCall cfg caller now heap e 0 msg from rfl]
    by_cases hg : cfg.level ≥ FatalLevel
    · rw [Entry.fatalExCall_eq_enabled cfg caller now heap e 0 msg hg]
      exact Entry.logF_heap_no_add cfg caller now heap e 0 FatalLevel msg h
    · rw [Entry.fatalExCall_eq_disabled cfg caller now heap e 0 msg hg]
  · -- Error
    rw [show Entry.namedCall 2 cfg caller now heap e msg =
      Entry.errorCall cfg caller now heap e msg from rfl]
    unfold Entry.errorCall
    by_cases hg : cfg.level ≥ ErrorLevel
    · rw [if_pos hg]
      exact Entry.logF_heap_no_add cfg caller now heap e 0 ErrorLevel msg h
    · rw [if_neg hg]
      rfl
  · -- Warn
    rw [show Entry.namedCall 3 cfg caller now heap e msg =
      Entry.warnCall cfg caller now heap e msg from rfl]
    unfold Entry.warnCall
    by_cases hg : cfg.level ≥ WarnLevel
    · rw [if_pos hg]
      exact Entry.logF_heap_no_add cfg caller now heap e 0 WarnLevel msg h
    · rw [if_neg hg]
      rfl
  · -- Info
    rw [show Entry.namedCall 4 cfg caller now heap e msg =
      Entry.infoCall cfg caller now heap e msg from rfl]
    unfold Entry.infoCall
    by_cases hg : cfg.level ≥ InfoLevel
    · rw [if_pos hg]
      exact Entry.logF_heap_no_add cfg caller now heap e 0 InfoLevel msg h
    · rw [if_neg hg]
      rfl
  · -- Debug
    rw [show Entry.namedCall 5 cfg caller now heap e msg =
      Entry.debugCall cfg caller now heap e msg from rfl]
    unfold Entry.debugCall
    by_cases hg : cfg.level ≥ DebugLevel
    · rw [if_pos hg]
      exact Entry.logF_heap_no_add cfg caller now heap e 0 DebugLevel msg h
    · rw [if_neg hg]
      rfl

/-- Claim C10 witness for the amended statement: with no hooks, an
enabled Info call leaves the heap unchanged. -/
theorem claim_c10_amended_witness :
    (Entry.namedCall 4 cfgW callerW 0 heapW eW "m").heap = heapW :=
  claim_c10_amended cfgW callerW 0 heapW eW "m" 4 (by decide) (by decide)

end Logrus
